import Mathlib

/-!
Shallow embedding of `scripts/copy_image_model.py`, a utility that copies
deck-of-cards asset files (images and 3D models) from a source directory
into a project's asset tree, normalizing filenames on the way.

Paths are modelled as `String`s using `/` as separator.  Python `pathlib`
accessors `Path.name`, `Path.stem`, `Path.suffix` are modelled on the
character list of the final path component, following CPython's rules
(`suffix` is `name[i:]` for `i = name.rfind('.')` when `0 < i < len - 1`,
else empty; `stem` is the rest).  `str.lower` is modelled by
`Char.toLower`, adequate for the ASCII filenames this tool manipulates.

The filesystem is modelled as a finite map from file path to byte size
plus a set of existing directories.  I/O faults (OSError and friends)
are injected through an explicit `Faults` record so that the error
handling of the script can be stated and checked; an uncaught Python
exception is an `Except.error` escaping the modelled function.
-/

namespace CopyImageModel

/-- Python `str.lower` on a character list (ASCII). -/
def pyLower (cs : List Char) : List Char := cs.map Char.toLower

/-- Index of the last occurrence of `c` in `cs`, Python `str.rfind` (as
`Option` instead of `-1`). -/
def rfindIdx (cs : List Char) (c : Char) : Option Nat :=
  match cs.reverse.findIdx? (fun d => d = c) with
  | none => none
  | some j => some (cs.length - 1 - j)

/-- Python `PurePath.suffix` on a final path component: the part from the
last dot on, when that dot is neither the first nor the last character;
otherwise empty. -/
def pySuffix (name : List Char) : List Char :=
  match rfindIdx name '.' with
  | none => []
  | some i => if 0 < i ∧ i < name.length - 1 then name.drop i else []

/-- Python `PurePath.stem` on a final path component: the component with
`pySuffix` removed. -/
def pyStem (name : List Char) : List Char :=
  match rfindIdx name '.' with
  | none => name
  | some i => if 0 < i ∧ i < name.length - 1 then name.take i else name

/-- The final component of a `/`-separated path, Python `PurePath.name`. -/
def afterLastSlash : List Char → List Char
  | [] => []
  | c :: rest => if c = '/' ∨ '/' ∈ rest then afterLastSlash rest else c :: rest

/-- Embedding of `normalize_basename` (copy_image_model.py, lines 70-93).

    name = src.stem.lower()
    if len(name) < 2: return src.name.lower()
    suit = name[0]; rank = name[1:]
    if suit not in {"c","d","h","s"}: return src.name.lower()
    if rank == "1": rank_out = "a"
    elif rank in {"t","10"}: rank_out = "10"
    else: rank_out = rank
    return f"{suit}{rank_out}{src.suffix.lower()}"
-/
def normalize_basename (src : String) : String :=
  let nm := afterLastSlash src.data
  let name := pyLower (pyStem nm)
  match name with
  | suit :: r :: rest =>
    if suit = 'c' ∨ suit = 'd' ∨ suit = 'h' ∨ suit = 's' then
      let rank := r :: rest
      let rank_out :=
        if rank = ['1'] then ['a']
        else if rank = ['t'] ∨ rank = ['1', '0'] then ['1', '0']
        else rank
      String.mk (suit :: (rank_out ++ pyLower (pySuffix nm)))
    else String.mk (pyLower nm)
  | _ => String.mk (pyLower nm)

/-- The normalizer as the specification words it (spec.md §4.2), taking a
filename directly: (1) lowercase the stem; (2) if the stem has fewer than
2 characters return the original filename lowercased; (3) if the first
character is not one of c, d, h, s return the original filename
lowercased; (4) rank "1" becomes "a", rank "t" or "10" becomes "10", any
other rank passes through; (5) result is suit + normalized rank +
lowercased original extension. -/
def normalize_spec (filename : String) : String :=
  let stem := pyLower (pyStem filename.data)
  if stem.length < 2 then String.mk (pyLower filename.data)
  else
    match stem with
    | suit :: rank =>
      if suit = 'c' ∨ suit = 'd' ∨ suit = 'h' ∨ suit = 's' then
        let nrank :=
          if rank = ['1'] then ['a']
          else if rank = ['t'] ∨ rank = ['1', '0'] then ['1', '0']
          else rank
        String.mk (suit :: (nrank ++ pyLower (pySuffix filename.data)))
      else String.mk (pyLower filename.data)
    | [] => String.mk (pyLower filename.data)

/-- `IMAGE_EXTS = {".png", ".jpg", ".jpeg", ".webp"}` (line 43). -/
def IMAGE_EXTS : List String := [".png", ".jpg", ".jpeg", ".webp"]

/-- `MODEL_EXTS = {".glb"}` (line 44). -/
def MODEL_EXTS : List String := [".glb"]

/-- `CopyPlan` dataclass (lines 49-53): source path, destination path and
kind tag, the latter one of `"image"` or `"model"`. -/
structure CopyPlan where
  src : String
  dest : String
  kind : String
deriving DecidableEq, Repr

instance {ε α : Type} [DecidableEq ε] [DecidableEq α] :
    DecidableEq (Except ε α) := fun a b =>
  match a, b with
  | Except.error x, Except.error y =>
    if h : x = y then isTrue (congrArg Except.error h) else
      isFalse (fun hc => h (Except.error.inj hc))
  | Except.ok x, Except.ok y =>
    if h : x = y then isTrue (congrArg Except.ok h) else
      isFalse (fun hc => h (Except.ok.inj hc))
  | Except.error _, Except.ok _ => isFalse (fun hc => Except.noConfusion hc)
  | Except.ok _, Except.error _ => isFalse (fun hc => Except.noConfusion hc)

/-- The modelled filesystem: a finite map from file path to byte size and
the set of existing directories. -/
structure FS where
  files : List (String × Nat)
  dirs : List String
deriving DecidableEq, Repr

/-- `Path.stat().st_size` for a file (`none` when the file does not exist,
in which case Python raises `FileNotFoundError`). -/
def FS.size (fs : FS) (p : String) : Option Nat := fs.files.lookup p

/-- `Path.exists()` for a file path. -/
def FS.hasFile (fs : FS) (p : String) : Bool := (fs.size p).isSome

/-- Write `sz` bytes at path `p` (what a completed copy leaves behind). -/
def FS.setFile (fs : FS) (p : String) (sz : Nat) : FS :=
  { fs with files := (p, sz) :: fs.files.filter (fun e => e.1 ≠ p) }

/-- Injected I/O faults for one plan's execution: each flag makes the
corresponding OS call raise (OSError, or for the copy step any
exception), modelling disappearing files, permission errors and the
like.  `none` / `false` everywhere is a fault-free run. -/
structure Faults where
  existsErr : Bool := false
  statSrcErr : Bool := false
  statDestErr : Bool := false
  mkdirErr : Option String := none
  copyErr : Option String := none
deriving DecidableEq, Repr

/-- The fault-free environment. -/
def noFaults : Faults := {}

/-- Embedding of `is_same_file` (lines 57-64):

    try:
        return dest.exists() and src.stat().st_size == dest.stat().st_size
    except OSError:
        return False

A raised `OSError` (from the existence check or either `stat`) is caught
and yields `False`; `src.stat()` on a missing source raises
`FileNotFoundError`, an `OSError`. -/
def is_same_file (src dest : String) (fs : FS) (f : Faults) : Bool :=
  if f.existsErr then false
  else if fs.hasFile dest then
    if f.statSrcErr then false
    else
      match fs.size src with
      | none => false
      | some ss =>
        if f.statDestErr then false
        else
          match fs.size dest with
          | none => false
          | some ds => ss = ds
  else false

/-- Embedding of `ensure_dir` (lines 67-68): `p.mkdir(parents=True,
exist_ok=True)`.  A raised `OSError` is NOT caught here and escapes as
`Except.error`. -/
def ensure_dir (p : String) (fs : FS) (f : Faults) : Except String FS :=
  match f.mkdirErr with
  | some m => Except.error m
  | none =>
    Except.ok { fs with dirs := if p ∈ fs.dirs then fs.dirs else p :: fs.dirs }

/-- `Path.parent` of a `/`-separated path: everything before the last
slash, or `"."` when there is none. -/
def parentDir (p : String) : String :=
  match rfindIdx p.data '/' with
  | none => "."
  | some i => String.mk (p.data.take i)

/-- The string Python formats for the `FileNotFoundError` raised by
`shutil.copy2` on a missing source file. -/
def missingSrcMsg (src : String) : String :=
  "[Errno 2] No such file or directory: " ++ src

/-- Embedding of `copy_one` (lines 122-136).  Returns the updated
filesystem and the status string; an exception escaping the function is
`Except.error`.  Note that `ensure_dir` runs OUTSIDE the try/except: only
the `shutil.copy2` call is guarded.

    dest_parent = plan.dest.parent
    ensure_dir(dest_parent)
    if is_same_file(plan.src, plan.dest): return plan, "skip (same size)"
    if dry_run: return plan, "dry-run (would copy)"
    try:
        shutil.copy2(plan.src, plan.dest); return plan, "copied"
    except Exception as e:
        return plan, f"ERROR: {e}"
-/
def copy_one (plan : CopyPlan) (dry_run : Bool) (fs : FS) (f : Faults) :
    Except String (FS × String) :=
  match ensure_dir (parentDir plan.dest) fs f with
  | Except.error m => Except.error m
  | Except.ok fs1 =>
    if is_same_file plan.src plan.dest fs1 f then
      Except.ok (fs1, "skip (same size)")
    else if dry_run then
      Except.ok (fs1, "dry-run (would copy)")
    else
      match f.copyErr with
      | some m => Except.ok (fs1, "ERROR: " ++ m)
      | none =>
        match fs1.size plan.src with
        | none => Except.ok (fs1, "ERROR: " ++ missingSrcMsg plan.src)
        | some sz => Except.ok (fs1.setFile plan.dest sz, "copied")

/-- One directory entry as yielded by `src_dir.iterdir()`: its full path
and whether `p.is_file()` holds. -/
structure Entry where
  path : String
  isFile : Bool
deriving DecidableEq, Repr

/-- `p.suffix.lower()` for a path string. -/
def lowerSuffix (p : String) : String :=
  String.mk (pyLower (pySuffix (afterLastSlash p.data)))

/-- Embedding of `discover_files` (lines 96-108): walk the directory
listing in order, skip non-regular files, classify by lowercased
extension into images and models (appending in listing order);
everything else is dropped. -/
def discover_files (listing : List Entry) : List String × List String :=
  listing.foldl
    (fun acc e =>
      if e.isFile then
        if lowerSuffix e.path ∈ IMAGE_EXTS then (acc.1 ++ [e.path], acc.2)
        else if lowerSuffix e.path ∈ MODEL_EXTS then (acc.1, acc.2 ++ [e.path])
        else acc
      else acc)
    ([], [])

/-- Path join `a / b` of pathlib, for a relative final component. -/
def joinPath (a b : String) : String := a ++ "/" ++ b

/-- The `CopyPlan` built for one image file (line 115). -/
def imagePlan (images_dest : String) (p : String) : CopyPlan :=
  { src := p, dest := joinPath images_dest (normalize_basename p),
    kind := "image" }

/-- The `CopyPlan` built for one model file (line 118). -/
def modelPlan (models_dest : String) (p : String) : CopyPlan :=
  { src := p, dest := joinPath models_dest (normalize_basename p),
    kind := "model" }

/-- Embedding of `build_copy_plans` (lines 111-119): one plan appended
per source file, image plans first then model plans, each destination
the matching root joined with the normalized basename. -/
def build_copy_plans (images models : List String)
    (images_dest models_dest : String) : List CopyPlan :=
  let plans :=
    images.foldl (fun acc p => acc ++ [imagePlan images_dest p])
      ([] : List CopyPlan)
  models.foldl (fun acc p => acc ++ [modelPlan models_dest p]) plans

/-- The executor loop of `main` (lines 184-198) with the thread pool
sequentialized: each plan runs exactly once, each against its own fault
record (`faults` shorter than `plans` means fault-free for the rest); the
statuses come back in plan order.  An exception escaping a plan's
`copy_one` escapes the whole run, as an uncaught exception in a worker
resurfaces from `fut.result()` in the reporting loop. -/
def run_plans : List CopyPlan → List Faults → Bool → FS →
    Except String (FS × List String)
  | [], _, _, fs => Except.ok (fs, [])
  | p :: ps, fl, dry, fs =>
    match copy_one p dry fs (fl.headD noFaults) with
    | Except.error m => Except.error m
    | Except.ok (fs1, st) =>
      match run_plans ps fl.tail dry fs1 with
      | Except.error m => Except.error m
      | Except.ok (fs2, sts) => Except.ok (fs2, st :: sts)

/-- Status classification of the reporting loop (lines 190-198): a status
counts as an error exactly when it starts with none of `"copied"`,
`"skip"`, `"dry-run"`. -/
def isErrorStatus (st : String) : Bool :=
  ¬ (st.startsWith "copied" ∨ st.startsWith "skip" ∨ st.startsWith "dry-run")

/-- The state of the source directory as `main` can encounter it:
`missing` when `src_dir.exists() and src_dir.is_dir()` (line 158) fails
(directory absent, or present but not a directory); `unreadable` when
that check passes but `src_dir.iterdir()` raises an OSError such as
`PermissionError` (CPython's `Path.exists()` swallows only
ENOENT/ENOTDIR/EBADF/ELOOP, so a present-but-unreadable directory
passes the check and crashes in discovery); `readable` with the entries
`iterdir()` yields otherwise. -/
inductive SrcDir where
  | missing : SrcDir
  | unreadable : String → SrcDir
  | readable : List Entry → SrcDir

/-- Embedding of `main` (lines 154-205), printing elided.  Returns the
exit code and the final filesystem; an exception that escapes `main`
uncaught (so the interpreter, not `main`, picks the exit status) is
`Except.error`. -/
def main (src : SrcDir) (images_dest models_dest : String) (dry : Bool)
    (fs : FS) (faults : List Faults) : Except String (Nat × FS) :=
  match src with
  | SrcDir.missing => Except.ok (2, fs)
  | SrcDir.unreadable m => Except.error m
  | SrcDir.readable listing =>
    let (images, models) := discover_files listing
    let plans := build_copy_plans images models images_dest models_dest
    if plans = [] then Except.ok (0, fs)
    else
      match run_plans plans faults dry fs with
      | Except.error m => Except.error m
      | Except.ok (fs1, statuses) =>
        let errors := (statuses.filter (fun st => isErrorStatus st)).length
        Except.ok (if errors ≠ 0 then 1 else 0, fs1)

/-- The plan list `main` builds from a directory listing. -/
def plans_of (listing : List Entry) (idest mdest : String) : List CopyPlan :=
  build_copy_plans (discover_files listing).1 (discover_files listing).2
    idest mdest

/-- The suit characters this tool recognizes, in both cases. -/
def validSuits : List Char := ['c', 'd', 'h', 's', 'C', 'D', 'H', 'S']

/-- The rank tokens of the glossary (2-9, t/10 for ten, 1 for ace, plus
court cards and the already-normalized a), in both cases. -/
def validRanks : List String :=
  ["1", "2", "3", "4", "5", "6", "7", "8", "9", "10", "t", "T",
   "j", "q", "k", "J", "Q", "K", "a", "A"]

/-- The file extensions this tool handles, in both cases. -/
def cardExts : List String :=
  [".png", ".jpg", ".jpeg", ".webp", ".glb", ".PNG", ".JPG", ".GLB"]

/-- An entry discovery keeps in the image list: a regular file whose
lowercased extension is one of `.png .jpg .jpeg .webp`. -/
def isImageFile (e : Entry) : Bool :=
  e.isFile && decide (lowerSuffix e.path ∈ IMAGE_EXTS)

/-- An entry discovery keeps in the model list: a regular file whose
lowercased extension is `.glb`. -/
def isModelFile (e : Entry) : Bool :=
  e.isFile && decide (lowerSuffix e.path ∈ MODEL_EXTS)

theorem afterLastSlash_eq_self {cs : List Char} (h : '/' ∉ cs) :
    afterLastSlash cs = cs := by
  cases cs with
  | nil => rfl
  | cons c rest =>
    have hc : ¬ (c = '/' ∨ '/' ∈ rest) := by
      intro hor
      cases hor with
      | inl h1 => exact h (h1 ▸ List.mem_cons_self c rest)
      | inr h2 => exact h (List.mem_cons_of_mem c h2)
    simp [afterLastSlash, hc]

/-- C1.  For every source filename (a name, i.e. a path without `/`),
`normalize_basename` follows the spec algorithm (`normalize_spec`):
lowercase the stem; if the stem has fewer than 2 characters or its first
character is not one of c, d, h, s, return the original filename
lowercased; otherwise map rank "1" to "a" and "t"/"10" to "10" and
return suit + normalized rank + lowercased extension.  In particular the
spec's five examples hold. -/
theorem normalize_basename_follows_spec (f : String) (h : '/' ∉ f.data) :
    normalize_basename f = normalize_spec f ∧
    normalize_basename "d1.png" = "da.png" ∧
    normalize_basename "dt.png" = "d10.png" ∧
    normalize_basename "s10.jpg" = "s10.jpg" ∧
    normalize_basename "h5.webp" = "h5.webp" ∧
    normalize_basename "zz.png" = "zz.png" := by
  refine ⟨?_, by decide, by decide, by decide, by decide, by decide⟩
  simp only [normalize_basename, normalize_spec, afterLastSlash_eq_self h]
  cases hp : pyLower (pyStem f.data) with
  | nil => simp
  | cons a tl =>
    cases tl with
    | nil => simp
    | cons b tl2 =>
      rw [if_neg (by simp)]

theorem normalize_basename_follows_spec_witness :
    normalize_basename "d1.png" = normalize_spec "d1.png" :=
  (normalize_basename_follows_spec "d1.png" (by decide)).1

/-- C9.  Normalization is idempotent on every valid suit/rank input:
normalizing an already-normalized name returns the same name. -/
theorem normalize_idempotent_on_valid :
    ∀ s ∈ validSuits, ∀ r ∈ validRanks, ∀ e ∈ cardExts,
      normalize_basename
          (normalize_basename (String.mk (s :: (r.data ++ e.data)))) =
        normalize_basename (String.mk (s :: (r.data ++ e.data))) := by
  decide

theorem normalize_idempotent_on_valid_witness :
    normalize_basename
        (normalize_basename (String.mk ('d' :: ("1".data ++ ".png".data)))) =
      normalize_basename (String.mk ('d' :: ("1".data ++ ".png".data))) :=
  normalize_idempotent_on_valid 'd' (by decide) "1" (by decide)
    ".png" (by decide)

theorem image_not_model {s : String} (h : s ∈ IMAGE_EXTS) :
    s ∉ MODEL_EXTS := by
  intro hm
  simp only [ MODEL_EXTS, List.mem_singleton] at hm
  rw [hm] at h
  exact absurd h (by decide)

theorem discover_files_go (listing : List Entry) :
    ∀ acc : List String × List String,
      listing.foldl
        (fun acc e =>
          if e.isFile then
            if lowerSuffix e.path ∈ IMAGE_EXTS then (acc.1 ++ [e.path], acc.2)
            else if lowerSuffix e.path ∈ MODEL_EXTS then
              (acc.1, acc.2 ++ [e.path])
            else acc
          else acc)
        acc =
      (acc.1 ++ (listing.filter isImageFile).map Entry.path,
       acc.2 ++ (listing.filter isModelFile).map Entry.path) := by
  induction listing with
  | nil => intro acc; simp
  | cons e rest ih =>
    intro acc
    rw [List.foldl_cons, ih]
    by_cases hf : e.isFile
    · by_cases hi : lowerSuffix e.path ∈ IMAGE_EXTS
      · have hm : lowerSuffix e.path ∉ MODEL_EXTS := image_not_model hi
        simp [hf, hi, hm, isImageFile, isModelFile, List.filter_cons,
          List.append_assoc]
      · by_cases hm : lowerSuffix e.path ∈ MODEL_EXTS
        · simp [hf, hi, hm, isImageFile, isModelFile, List.filter_cons,
            List.append_assoc]
        · simp [hf, hi, hm, isImageFile, isModelFile, List.filter_cons]
    · simp [hf, isImageFile, isModelFile, List.filter_cons]

/-- C7.  `discover_files` returns exactly the direct entries that are
regular files with a recognized lowercased extension, images and models
separately, each in the order of the underlying directory listing;
subdirectories, non-regular files and other extensions are excluded. -/
theorem discover_files_spec (listing : List Entry) :
    discover_files listing =
      ((listing.filter isImageFile).map Entry.path,
       (listing.filter isModelFile).map Entry.path) := by
  rw [discover_files, discover_files_go]
  simp

theorem is_same_file_update_dirs (src dest : String) (fs : FS)
    (ds : List String) (f : Faults) :
    is_same_file src dest { fs with dirs := ds } f =
      is_same_file src dest fs f := rfl

theorem size_update_dirs (fs : FS) (ds : List String) (p : String) :
    FS.size { fs with dirs := ds } p = fs.size p := rfl

theorem error_status_ne_skip (m : String) :
    ("ERROR: " ++ m) ≠ "skip (same size)" := by
  intro hc
  have hd := congrArg String.data hc
  rw [String.data_append] at hd
  have h1 : ("ERROR: ").data = 'E' :: "RROR: ".data := rfl
  have h2 : ("skip (same size)").data = 's' :: "kip (same size)".data := rfl
  rw [h1, h2, List.cons_append] at hd
  exact absurd (List.cons.inj hd).1 (by decide)

/-- C10.  `is_same_file` is total: whenever the existence check or either
stat call fails with an OSError (injected fault, or a source that has
vanished so that `src.stat()` raises), it returns `False`; consequently
the executor falls through past the skip branch to a copy attempt
instead of crashing the plan. -/
theorem is_same_file_never_raises (src dest : String) (fs : FS) (f : Faults)
    (h : f.existsErr = true ∨ f.statSrcErr = true ∨ f.statDestErr = true ∨
      fs.size src = none) :
    is_same_file src dest fs f = false ∧
    ∀ k, f.mkdirErr = none →
      ∃ fs1 st, copy_one { src := src, dest := dest, kind := k } false fs f =
          Except.ok (fs1, st) ∧ st ≠ "skip (same size)" := by
  have h1 : is_same_file src dest fs f = false := by
    unfold is_same_file
    by_cases he : f.existsErr = true
    · simp [he]
    · simp only [he, if_false]
      by_cases hd : fs.hasFile dest
      · simp only [hd, if_true]
        by_cases hs1 : f.statSrcErr = true
        · simp [hs1]
        · simp only [hs1, if_false]
          rcases h with h | h | h | h
          · exact absurd h he
          · exact absurd h hs1
          · cases hsrc : fs.size src with
            | none => rfl
            | some ss => simp [h]
          · simp [h]
      · simp [hd]
  refine ⟨h1, ?_⟩
  intro k hmk
  simp only [copy_one, ensure_dir, hmk, is_same_file_update_dirs, h1,
    if_false, Bool.false_eq_true, size_update_dirs]
  cases hce : f.copyErr with
  | some m => exact ⟨_, _, rfl, error_status_ne_skip m⟩
  | none =>
    cases hsz : fs.size src with
    | none => exact ⟨_, _, rfl, error_status_ne_skip _⟩
    | some sz => exact ⟨_, _, rfl, by decide⟩

theorem is_same_file_never_raises_witness :
    is_same_file "s/a.png" "r/b.png"
      { files := [("s/a.png", 5), ("r/b.png", 5)], dirs := [] }
      { statDestErr := true } = false :=
  (is_same_file_never_raises "s/a.png" "r/b.png"
    { files := [("s/a.png", 5), ("r/b.png", 5)], dirs := [] }
    { statDestErr := true } (Or.inr (Or.inr (Or.inl rfl)))).1

/-- C4.  If the destination file exists with the same byte size as the
source and the OS calls do not fault, `copy_one` reports the skip
outcome and leaves the file map untouched, whatever the dry-run flag is
(the skip check runs before, and independently of, dry-run). -/
theorem skip_rule_before_dry_run (plan : CopyPlan) (dry : Bool) (fs : FS)
    (f : Faults) (n : Nat) (hmk : f.mkdirErr = none)
    (he : f.existsErr = false) (hs1 : f.statSrcErr = false)
    (hs2 : f.statDestErr = false) (hd : fs.size plan.dest = some n)
    (hs : fs.size plan.src = some n) :
    ∃ fs1, copy_one plan dry fs f = Except.ok (fs1, "skip (same size)") ∧
      fs1.files = fs.files := by
  have hsame : is_same_file plan.src plan.dest fs f = true := by
    unfold is_same_file
    simp [he, hs1, hs2, FS.hasFile, hd, hs]
  refine ⟨{ fs with dirs := if parentDir plan.dest ∈ fs.dirs then fs.dirs
              else parentDir plan.dest :: fs.dirs }, ?_, rfl⟩
  simp [copy_one, ensure_dir, hmk, is_same_file_update_dirs, hsame]

theorem skip_rule_before_dry_run_witness :
    ∃ fs1, copy_one { src := "s/a.png", dest := "r/i/a.png", kind := "image" }
        true { files := [("s/a.png", 5), ("r/i/a.png", 5)], dirs := ["s", "r/i"] }
        noFaults = Except.ok (fs1, "skip (same size)") ∧
      fs1.files = [("s/a.png", 5), ("r/i/a.png", 5)] :=
  skip_rule_before_dry_run _ true _ noFaults 5 rfl rfl rfl rfl
    (by decide) (by decide)

/-- C3 fails on the code: with the dry-run flag set, executing a plan
whose destination directory is missing still creates that directory — a
filesystem write (`ensure_dir` runs before the dry-run check). -/
theorem dry_run_creates_dest_dir :
    copy_one { src := "s/a.png", dest := "r/images/a.png", kind := "image" }
        true { files := [("s/a.png", 5)], dirs := ["s"] } noFaults =
      Except.ok ({ files := [("s/a.png", 5)], dirs := ["r/images", "s"] },
        "dry-run (would copy)") ∧
    ({ files := [("s/a.png", 5)], dirs := ["r/images", "s"] } : FS) ≠
      { files := [("s/a.png", 5)], dirs := ["s"] } := by decide

/-- C3 amended: with the dry-run flag set, executing a plan performs no
file creation or overwrite (the file map is unchanged) and, when the
skip rule does not already apply, reports the would-copy outcome; the
destination directory, however, is still created. -/
theorem dry_run_no_file_writes (plan : CopyPlan) (fs : FS) (f : Faults)
    (hmk : f.mkdirErr = none) :
    ∃ fs1 st, copy_one plan true fs f = Except.ok (fs1, st) ∧
      fs1.files = fs.files ∧
      (is_same_file plan.src plan.dest fs f = false →
        st = "dry-run (would copy)") := by
  by_cases hsame : is_same_file plan.src plan.dest fs f = true
  · refine ⟨{ fs with dirs := if parentDir plan.dest ∈ fs.dirs then fs.dirs
                else parentDir plan.dest :: fs.dirs },
      "skip (same size)", ?_, rfl, ?_⟩
    · simp [copy_one, ensure_dir, hmk, is_same_file_update_dirs, hsame]
    · intro hfalse
      rw [hsame] at hfalse
      exact absurd hfalse (by decide)
  · have hf : is_same_file plan.src plan.dest fs f = false :=
      Bool.eq_false_iff.mpr hsame
    refine ⟨{ fs with dirs := if parentDir plan.dest ∈ fs.dirs then fs.dirs
                else parentDir plan.dest :: fs.dirs },
      "dry-run (would copy)", ?_, rfl, fun _ => rfl⟩
    simp [copy_one, ensure_dir, hmk, is_same_file_update_dirs, hf]

theorem dry_run_no_file_writes_witness :
    ∃ fs1 st, copy_one { src := "s/a.png", dest := "r/i/a.png", kind := "image" }
        true { files := [("s/a.png", 5)], dirs := ["s"] } noFaults =
        Except.ok (fs1, st) ∧
      fs1.files = [("s/a.png", 5)] ∧
      (is_same_file "s/a.png" "r/i/a.png"
          { files := [("s/a.png", 5)], dirs := ["s"] } noFaults = false →
        st = "dry-run (would copy)") :=
  dry_run_no_file_writes { src := "s/a.png", dest := "r/i/a.png", kind := "image" }
    { files := [("s/a.png", 5)], dirs := ["s"] } noFaults rfl

theorem copy_one_total (plan : CopyPlan) (dry : Bool) (fs : FS) (f : Faults)
    (hmk : f.mkdirErr = none) :
    ∃ fs1 st, copy_one plan dry fs f = Except.ok (fs1, st) := by
  simp only [copy_one, ensure_dir, hmk]
  repeat' split
  all_goals exact ⟨_, _, rfl⟩

theorem run_plans_no_raise (plans : List CopyPlan) :
    ∀ (faults : List Faults) (fsx : FS) (dry : Bool),
      (∀ g ∈ faults, Faults.mkdirErr g = none) →
      ∃ fs2 sts, run_plans plans faults dry fsx = Except.ok (fs2, sts) ∧
        sts.length = plans.length := by
  induction plans with
  | nil => exact fun fl fsx dry _ => ⟨fsx, [], rfl, rfl⟩
  | cons p ps ih =>
    intro fl fsx dry hfl
    have hh : (fl.headD noFaults).mkdirErr = none := by
      cases fl with
      | nil => rfl
      | cons g gs => exact hfl g (List.mem_cons_self g gs)
    obtain ⟨fs1, st, hco⟩ := copy_one_total p dry fsx (fl.headD noFaults) hh
    have htl : ∀ g ∈ fl.tail, Faults.mkdirErr g = none := by
      intro g hg
      cases fl with
      | nil => cases hg
      | cons g0 gs => exact hfl g (List.mem_cons_of_mem g0 hg)
    obtain ⟨fs2, sts, hrun, hlen⟩ := ih fl.tail fs1 dry htl
    refine ⟨fs2, st :: sts, ?_, by simp [hlen]⟩
    simp only [run_plans, hco, hrun]

/-- C2 amended: any failure raised during the copy step is caught within
the plan and turned into an "ERROR: <message>" outcome carrying the
underlying message, and with the ensure-directory step succeeding
`copy_one` never raises, so a copy-step failure never aborts the other
plans: the run still reports one outcome per plan. -/
theorem copy_step_errors_caught (plan : CopyPlan) (dry : Bool) (fs : FS)
    (f : Faults) (m : String) (hmk : f.mkdirErr = none) :
    (∃ fs1 st, copy_one plan dry fs f = Except.ok (fs1, st)) ∧
    (f.copyErr = some m → is_same_file plan.src plan.dest fs f = false →
      dry = false →
      ∃ fs1, copy_one plan dry fs f = Except.ok (fs1, "ERROR: " ++ m) ∧
        fs1.files = fs.files) ∧
    (∀ (plans : List CopyPlan) (faults : List Faults) (fsx : FS),
      (∀ g ∈ faults, Faults.mkdirErr g = none) →
      ∃ fs2 sts, run_plans plans faults dry fsx = Except.ok (fs2, sts) ∧
        sts.length = plans.length) := by
  refine ⟨copy_one_total plan dry fs f hmk, ?_, ?_⟩
  · intro hcerr hnsame hdry
    subst hdry
    refine ⟨{ fs with dirs := if parentDir plan.dest ∈ fs.dirs then fs.dirs
                else parentDir plan.dest :: fs.dirs }, ?_, rfl⟩
    simp [copy_one, ensure_dir, hmk, is_same_file_update_dirs, hnsame, hcerr]
  · exact fun plans faults fsx hfl => run_plans_no_raise plans faults fsx dry hfl

theorem copy_step_errors_caught_witness :
    ∃ fs1, copy_one { src := "s/a.png", dest := "r/i/a.png", kind := "image" }
        false { files := [("s/a.png", 5)], dirs := ["s"] }
        { copyErr := some "disk full" } =
        Except.ok (fs1, "ERROR: " ++ "disk full") ∧
      fs1.files = [("s/a.png", 5)] :=
  (copy_step_errors_caught
    { src := "s/a.png", dest := "r/i/a.png", kind := "image" } false
    { files := [("s/a.png", 5)], dirs := ["s"] }
    { copyErr := some "disk full" } "disk full" rfl).2.1 rfl (by decide) rfl

/-- C2 fails on the code as claimed: an I/O failure raised during the
ensure-destination-directory step is NOT caught inside `copy_one` — the
exception escapes the plan, and in the executor it escapes the whole
run, so no outcome at all is reported for the remaining plans. -/
theorem ensure_dir_error_escapes_copy_one :
    copy_one { src := "s/a.png", dest := "r/i/a.png", kind := "image" } false
        { files := [("s/a.png", 5)], dirs := ["s"] }
        { mkdirErr := some "Permission denied" } =
      Except.error "Permission denied" ∧
    run_plans
        [{ src := "s/a.png", dest := "r/i/a.png", kind := "image" },
         { src := "s/b.png", dest := "r/i/b.png", kind := "image" }]
        [{ mkdirErr := some "Permission denied" }] false
        { files := [("s/a.png", 5), ("s/b.png", 7)], dirs := ["s"] } =
      Except.error "Permission denied" := by decide

/-- C5 fails on the code as claimed: for an existing-but-unreadable
source directory the `exists()/is_dir()` check passes and
`src_dir.iterdir()` raises an uncaught `PermissionError` — `main` never
returns an exit code at all (the interpreter exits 1), so the exit code
is not 2 there. -/
theorem unreadable_src_dir_not_exit_2 :
    main (SrcDir.unreadable "[Errno 13] Permission denied: 's'")
        "r/i" "r/m" false { files := [], dirs := ["s"] } [] =
      Except.error "[Errno 13] Permission denied: 's'" ∧
    main (SrcDir.unreadable "[Errno 13] Permission denied: 's'")
        "r/i" "r/m" false { files := [], dirs := ["s"] } [] ≠
      Except.ok (2, { files := [], dirs := ["s"] }) := by decide

/-- C5 amended: `main`'s exit code is exactly 2 when the source
directory is missing or not a directory (the `exists()/is_dir()` check
fails), with the filesystem untouched (no plans executed); for an
existing-but-unreadable directory the check passes and the OSError
raised by `iterdir()` propagates uncaught (the interpreter, not `main`,
then exits 1); the code is 0 when there are no plans; and, when the run
of the plans completes, 1 or 0 according to whether some plan produced
an error outcome. -/
theorem main_exit_codes (listing : List Entry) (m : String)
    (idest mdest : String) (dry : Bool) (fs : FS) (faults : List Faults) :
    (main SrcDir.missing idest mdest dry fs faults = Except.ok (2, fs)) ∧
    (main (SrcDir.unreadable m) idest mdest dry fs faults =
      Except.error m) ∧
    (plans_of listing idest mdest = [] →
      main (SrcDir.readable listing) idest mdest dry fs faults =
        Except.ok (0, fs)) ∧
    (∀ fs1 sts,
      run_plans (plans_of listing idest mdest) faults dry fs =
        Except.ok (fs1, sts) →
      main (SrcDir.readable listing) idest mdest dry fs faults =
        Except.ok
          (if sts.any (fun st => isErrorStatus st) then 1 else 0, fs1)) := by
  rcases hde : discover_files listing with ⟨images, models⟩
  have hpo : plans_of listing idest mdest =
      build_copy_plans images models idest mdest := by
    simp only [plans_of, hde]
  refine ⟨?_, ?_, ?_, ?_⟩
  · simp [main]
  · simp [main]
  · intro hpl
    rw [hpo] at hpl
    simp [main, hde, hpl]
  · intro fs1 sts hrun
    rw [hpo] at hrun
    by_cases hpl : build_copy_plans images models idest mdest = []
    · rw [hpl] at hrun
      have h2 := Except.ok.inj hrun
      have hfs : fs = fs1 := congrArg Prod.fst h2
      have hsts : ([] : List String) = sts := congrArg Prod.snd h2
      simp [main, hde, hpl, ← hfs, ← hsts]
    · have hcond :
          ((sts.filter (fun st => isErrorStatus st)).length ≠ 0) =
            (sts.any (fun st => isErrorStatus st) = true) := by
        apply propext
        constructor
        · intro hne
          rcases List.length_pos.mp (Nat.pos_of_ne_zero hne) with _
          obtain ⟨x, hx⟩ := List.exists_mem_of_length_pos
            (Nat.pos_of_ne_zero hne)
          have hx2 := List.mem_filter.mp hx
          exact List.any_eq_true.mpr ⟨x, hx2.1, hx2.2⟩
        · intro hany
          obtain ⟨x, hx, hpx⟩ := List.any_eq_true.mp hany
          intro h0
          rw [List.length_eq_zero] at h0
          have := List.mem_filter.mpr ⟨hx, hpx⟩
          rw [h0] at this
          cases this
      simp only [main, Bool.not_true, hde, if_neg, hrun, hpl]
      simp only [ite_false, Bool.false_eq_true, if_false]
      simp only [hcond]

theorem main_exit_codes_witness :
    main (SrcDir.readable [{ path := "s/a.png", isFile := true }])
        "r/i" "r/m" false { files := [("s/a.png", 3)], dirs := ["s"] } [] =
      Except.ok
        (if (["copied"].any (fun st => isErrorStatus st)) then 1 else 0,
          { files := [("r/i/a.png", 3), ("s/a.png", 3)],
            dirs := ["r/i", "s"] }) :=
  (main_exit_codes [{ path := "s/a.png", isFile := true }] "oops" "r/i"
    "r/m" false { files := [("s/a.png", 3)], dirs := ["s"] } []).2.2.2
    { files := [("r/i/a.png", 3), ("s/a.png", 3)], dirs := ["r/i", "s"] }
    ["copied"] (by decide)

theorem foldl_append_map {α β : Type} (g : α → β) (l : List α) :
    ∀ acc : List β, l.foldl (fun acc p => acc ++ [g p]) acc = acc ++ l.map g := by
  induction l with
  | nil => intro acc; simp
  | cons x xs ih =>
    intro acc
    rw [List.foldl_cons, ih]
    simp

theorem build_copy_plans_eq (images models : List String)
    (idest mdest : String) :
    build_copy_plans images models idest mdest =
      images.map (imagePlan idest) ++ models.map (modelPlan mdest) := by
  unfold build_copy_plans
  rw [foldl_append_map, foldl_append_map]
  simp

theorem prefix_joinPath (root name : String) :
    (root ++ "/").data <+: (joinPath root name).data :=
  ⟨name.data, by simp [joinPath]⟩

theorem not_under_other (idest mdest name : String)
    (h1 : ¬ (idest ++ "/").data <+: (mdest ++ "/").data)
    (h2 : ¬ (mdest ++ "/").data <+: (idest ++ "/").data) :
    ¬ (mdest ++ "/").data <+: (joinPath idest name).data := by
  intro hc
  rcases List.prefix_or_prefix_of_prefix hc (prefix_joinPath idest name) with
    h | h
  · exact h2 h
  · exact h1 h

/-- C8.  Under non-overlapping destination roots, `build_copy_plans`
yields exactly one plan per input file — image plans in discovery order
then model plans in discovery order — with each destination the root of
the plan's kind joined with the normalized basename, and every plan's
destination lies under exactly the one root determined by its kind. -/
theorem build_copy_plans_spec (images models : List String)
    (idest mdest : String)
    (h1 : ¬ (idest ++ "/").data <+: (mdest ++ "/").data)
    (h2 : ¬ (mdest ++ "/").data <+: (idest ++ "/").data) :
    build_copy_plans images models idest mdest =
      images.map (imagePlan idest) ++ models.map (modelPlan mdest) ∧
    (∀ plan ∈ build_copy_plans images models idest mdest,
      (plan.kind = "image" ∧ plan.src ∈ images ∧
        plan.dest = joinPath idest (normalize_basename plan.src)) ∨
      (plan.kind = "model" ∧ plan.src ∈ models ∧
        plan.dest = joinPath mdest (normalize_basename plan.src))) ∧
    (∀ plan ∈ build_copy_plans images models idest mdest,
      ((idest ++ "/").data <+: plan.dest.data ↔ plan.kind = "image") ∧
      ((mdest ++ "/").data <+: plan.dest.data ↔ plan.kind = "model")) := by
  refine ⟨build_copy_plans_eq images models idest mdest, ?_, ?_⟩
  · intro plan hplan
    rw [build_copy_plans_eq] at hplan
    rcases List.mem_append.mp hplan with hm | hm
    · obtain ⟨p, hp, hpe⟩ := List.mem_map.mp hm
      exact Or.inl (by rw [← hpe]; exact ⟨rfl, hp, rfl⟩)
    · obtain ⟨p, hp, hpe⟩ := List.mem_map.mp hm
      exact Or.inr (by rw [← hpe]; exact ⟨rfl, hp, rfl⟩)
  · intro plan hplan
    rw [build_copy_plans_eq] at hplan
    rcases List.mem_append.mp hplan with hm | hm
    · obtain ⟨p, _, hpe⟩ := List.mem_map.mp hm
      rw [← hpe]
      constructor
      · exact ⟨fun _ => rfl, fun _ => prefix_joinPath idest _⟩
      · constructor
        · intro hc
          exact absurd hc (not_under_other idest mdest _ h1 h2)
        · intro hk
          have hk2 : ("image" : String) = "model" := hk
          exact absurd hk2 (by decide)
    · obtain ⟨p, _, hpe⟩ := List.mem_map.mp hm
      rw [← hpe]
      constructor
      · constructor
        · intro hc
          exact absurd hc (not_under_other mdest idest _ h2 h1)
        · intro hk
          have hk2 : ("model" : String) = "image" := hk
          exact absurd hk2 (by decide)
      · exact ⟨fun _ => rfl, fun _ => prefix_joinPath mdest _⟩

theorem build_copy_plans_spec_witness :
    build_copy_plans ["s/d1.png"] ["s/k.glb"] "r/i" "r/m" =
      ["s/d1.png"].map (imagePlan "r/i") ++ ["s/k.glb"].map (modelPlan "r/m") :=
  (build_copy_plans_spec ["s/d1.png"] ["s/k.glb"] "r/i" "r/m"
    (by decide) (by decide)).1

theorem noFaults_mkdirErr : noFaults.mkdirErr = none := rfl

theorem noFaults_copyErr : noFaults.copyErr = none := rfl

theorem lookup_filter_ne (l : List (String × Nat)) (p q : String)
    (h : q ≠ p) :
    (l.filter (fun e => e.1 ≠ p)).lookup q = l.lookup q := by
  induction l with
  | nil => rfl
  | cons e rest ih =>
    obtain ⟨k, v⟩ := e
    simp only [decide_not] at ih
    by_cases hk : k = p
    · subst hk
      have hqk : (q == k) = false := beq_eq_false_iff_ne.mpr h
      simp [List.filter_cons, List.lookup_cons, hqk, ih]
    · simp [List.filter_cons, hk, List.lookup_cons, ih]

theorem copy_one_sizes (plan : CopyPlan) (fs : FS) (n : Nat)
    (hs : fs.size plan.src = some n) :
    ∃ fs1 st, copy_one plan false fs noFaults = Except.ok (fs1, st) ∧
      fs1.size plan.dest = some n ∧
      (∀ q, q ≠ plan.dest → fs1.size q = fs.size q) := by
  by_cases hsame : is_same_file plan.src plan.dest fs noFaults = true
  · have hdest : fs.size plan.dest = some n := by
      cases hdd : fs.size plan.dest with
      | none =>
        exact absurd hsame (by simp [is_same_file, FS.hasFile, hdd, noFaults])
      | some d =>
        have h2 := hsame
        simp [is_same_file, FS.hasFile, hdd, hs, noFaults] at h2
        rw [h2]
    refine ⟨{ fs with dirs := if parentDir plan.dest ∈ fs.dirs then fs.dirs
                else parentDir plan.dest :: fs.dirs },
      "skip (same size)", ?_, ?_, ?_⟩
    · simp [copy_one, ensure_dir, noFaults_mkdirErr, is_same_file_update_dirs,
        hsame]
    · rw [size_update_dirs]; exact hdest
    · intro q _; rw [size_update_dirs]
  · have hf : is_same_file plan.src plan.dest fs noFaults = false :=
      Bool.eq_false_iff.mpr hsame
    refine ⟨{ files := (plan.dest, n) ::
                List.filter (fun e => e.1 ≠ plan.dest) fs.files,
              dirs := if parentDir plan.dest ∈ fs.dirs then fs.dirs
                else parentDir plan.dest :: fs.dirs },
      "copied", ?_, ?_, ?_⟩
    · simp [copy_one, ensure_dir, noFaults_mkdirErr, noFaults_copyErr,
        is_same_file_update_dirs, hf, size_update_dirs, hs, FS.setFile]
    · simp [FS.size, List.lookup_cons]
    · intro q hq
      have hb : (q == plan.dest) = false := beq_eq_false_iff_ne.mpr hq
      simp only [FS.size, List.lookup_cons, hb, if_false, Bool.false_eq_true]
      exact lookup_filter_ne fs.files plan.dest q hq

theorem copy_one_skip_of_sizes (plan : CopyPlan) (fs : FS) (n : Nat)
    (hd : fs.size plan.dest = some n) (hs : fs.size plan.src = some n) :
    copy_one plan false fs noFaults =
      Except.ok ({ fs with dirs := if parentDir plan.dest ∈ fs.dirs then fs.dirs
                    else parentDir plan.dest :: fs.dirs },
        "skip (same size)") := by
  have hsame : is_same_file plan.src plan.dest fs noFaults = true := by
    simp [is_same_file, FS.hasFile, hd, hs, noFaults]
  simp [copy_one, ensure_dir, noFaults_mkdirErr, is_same_file_update_dirs,
    hsame]

theorem run_plans_first_sizes (plans : List CopyPlan) :
    ∀ fs : FS,
      (∀ p ∈ plans, ∃ n, fs.size p.src = some n) →
      List.Pairwise (fun p q : CopyPlan => p.dest ≠ q.dest) plans →
      (∀ p ∈ plans, ∀ q ∈ plans, p.dest ≠ q.src) →
      ∃ fs1 sts, run_plans plans [] false fs = Except.ok (fs1, sts) ∧
        (∀ p ∈ plans, fs1.size p.dest = fs.size p.src ∧
          fs1.size p.src = fs.size p.src) ∧
        (∀ q, (∀ p ∈ plans, q ≠ p.dest) → fs1.size q = fs.size q) := by
  induction plans with
  | nil => exact fun fs _ _ _ => ⟨fs, [], rfl, by simp, fun q _ => rfl⟩
  | cons p ps ih =>
    intro fs hsrc hpw hds
    obtain ⟨n, hn⟩ := hsrc p (List.mem_cons_self p ps)
    obtain ⟨fsA, st, hco, hAdest, hAother⟩ := copy_one_sizes p fs n hn
    have hsrcA : ∀ r ∈ ps, ∃ m, fsA.size r.src = some m := by
      intro r hr
      obtain ⟨m, hm⟩ := hsrc r (List.mem_cons_of_mem p hr)
      refine ⟨m, ?_⟩
      rw [hAother r.src
        (Ne.symm (hds p (List.mem_cons_self p ps) r (List.mem_cons_of_mem p hr)))]
      exact hm
    have hfirst := (List.pairwise_cons.mp hpw).1
    have hpw' := (List.pairwise_cons.mp hpw).2
    have hds' : ∀ a ∈ ps, ∀ b ∈ ps, a.dest ≠ b.src := fun a ha b hb =>
      hds a (List.mem_cons_of_mem p ha) b (List.mem_cons_of_mem p hb)
    obtain ⟨fs1, sts, hrun, hmain, hstable⟩ := ih fsA hsrcA hpw' hds'
    refine ⟨fs1, st :: sts, ?_, ?_, ?_⟩
    · simp only [run_plans, List.headD, List.tail_nil, hco, hrun]
    · intro r hr
      rcases List.mem_cons.mp hr with hre | hr'
      · subst hre
        constructor
        · rw [hstable r.dest hfirst, hAdest, hn]
        · rw [hstable r.src (fun a ha =>
              Ne.symm (hds a (List.mem_cons_of_mem r ha) r
                (List.mem_cons_self r ps))),
            hAother r.src
              (Ne.symm (hds r (List.mem_cons_self r ps) r
                (List.mem_cons_self r ps)))]
      · obtain ⟨hm1, hm2⟩ := hmain r hr'
        have hsrceq : fsA.size r.src = fs.size r.src :=
          hAother r.src
            (Ne.symm (hds p (List.mem_cons_self p ps) r (List.mem_cons_of_mem p hr')))
        exact ⟨by rw [hm1, hsrceq], by rw [hm2, hsrceq]⟩
    · intro q hq
      rw [hstable q (fun a ha => hq a (List.mem_cons_of_mem p ha)),
        hAother q (hq p (List.mem_cons_self p ps))]

theorem run_plans_all_skip (plans : List CopyPlan) :
    ∀ fs : FS,
      (∀ p ∈ plans, ∃ n, fs.size p.src = some n ∧ fs.size p.dest = some n) →
      ∃ fs2 sts, run_plans plans [] false fs = Except.ok (fs2, sts) ∧
        ∀ st ∈ sts, st = "skip (same size)" := by
  induction plans with
  | nil => exact fun fs _ => ⟨fs, [], rfl, by simp⟩
  | cons p ps ih =>
    intro fs hcond
    obtain ⟨n, hn, hd⟩ := hcond p (List.mem_cons_self p ps)
    have hco := copy_one_skip_of_sizes p fs n hd hn
    have hcond2 : ∀ r ∈ ps,
        ∃ m, FS.size { fs with dirs := if parentDir p.dest ∈ fs.dirs
                then fs.dirs else parentDir p.dest :: fs.dirs } r.src = some m ∧
          FS.size { fs with dirs := if parentDir p.dest ∈ fs.dirs
                then fs.dirs else parentDir p.dest :: fs.dirs } r.dest = some m := by
      intro r hr
      obtain ⟨m, h1, h2⟩ := hcond r (List.mem_cons_of_mem p hr)
      exact ⟨m, by rw [size_update_dirs]; exact h1,
        by rw [size_update_dirs]; exact h2⟩
    obtain ⟨fs2, sts, hrun, hall⟩ := ih _ hcond2
    refine ⟨fs2, "skip (same size)" :: sts, ?_, ?_⟩
    · simp only [run_plans, List.headD, List.tail_nil, hco, hrun]
    · intro st hst
      rcases List.mem_cons.mp hst with hste | hstm
      · exact hste
      · exact hall st hstm

/-- C6 amended: when the plans have pairwise-distinct destinations (no
normalization collisions), no destination coincides with any source, and
every source exists, running the plan list twice in succession
(fault-free, sources unchanged) gives only skip outcomes on the second
run — in particular zero "copied" outcomes. -/
theorem second_run_all_skip (plans : List CopyPlan) (fs : FS)
    (hpw : List.Pairwise (fun p q : CopyPlan => p.dest ≠ q.dest) plans)
    (hsrc : ∀ p ∈ plans, ∃ n, fs.size p.src = some n)
    (hds : ∀ p ∈ plans, ∀ q ∈ plans, p.dest ≠ q.src) :
    ∃ fs1 sts1 fs2 sts2,
      run_plans plans [] false fs = Except.ok (fs1, sts1) ∧
      run_plans plans [] false fs1 = Except.ok (fs2, sts2) ∧
      ∀ st ∈ sts2, st = "skip (same size)" := by
  obtain ⟨fs1, sts1, hrun1, hmain, _⟩ :=
    run_plans_first_sizes plans fs hsrc hpw hds
  have hcond : ∀ p ∈ plans,
      ∃ n, fs1.size p.src = some n ∧ fs1.size p.dest = some n := by
    intro p hp
    obtain ⟨n, hn⟩ := hsrc p hp
    obtain ⟨h1, h2⟩ := hmain p hp
    exact ⟨n, by rw [h2, hn], by rw [h1, hn]⟩
  obtain ⟨fs2, sts2, hrun2, hall⟩ := run_plans_all_skip plans fs1 hcond
  exact ⟨fs1, sts1, fs2, sts2, hrun1, hrun2, hall⟩

theorem second_run_all_skip_witness :
    ∃ fs1 sts1 fs2 sts2,
      run_plans [{ src := "s/a.png", dest := "r/i/a.png", kind := "image" }]
          [] false { files := [("s/a.png", 5)], dirs := ["s"] } =
        Except.ok (fs1, sts1) ∧
      run_plans [{ src := "s/a.png", dest := "r/i/a.png", kind := "image" }]
          [] false fs1 = Except.ok (fs2, sts2) ∧
      ∀ st ∈ sts2, st = "skip (same size)" :=
  second_run_all_skip
    [{ src := "s/a.png", dest := "r/i/a.png", kind := "image" }]
    { files := [("s/a.png", 5)], dirs := ["s"] }
    (by simp)
    (fun p hp => by
      rw [List.mem_singleton.mp hp]
      exact ⟨5, by decide⟩)
    (by decide)

/-- C6 fails on the code as claimed: the sources `dt.png` and `d10.png`
both normalize to the destination basename `d10.png`; with differing
sizes, *both* plans report "copied" again on the second run over an
unchanged source — the second run does not produce zero "copied"
outcomes. -/
theorem second_run_recopies_on_collision :
    build_copy_plans ["s/dt.png", "s/d10.png"] [] "r/img" "r/mdl" =
      [{ src := "s/dt.png", dest := "r/img/d10.png", kind := "image" },
       { src := "s/d10.png", dest := "r/img/d10.png", kind := "image" }] ∧
    run_plans
        [{ src := "s/dt.png", dest := "r/img/d10.png", kind := "image" },
         { src := "s/d10.png", dest := "r/img/d10.png", kind := "image" }]
        [] false { files := [("s/dt.png", 1), ("s/d10.png", 2)], dirs := ["s"] } =
      Except.ok
        ({ files := [("r/img/d10.png", 2), ("s/dt.png", 1), ("s/d10.png", 2)],
           dirs := ["r/img", "s"] }, ["copied", "copied"]) ∧
    run_plans
        [{ src := "s/dt.png", dest := "r/img/d10.png", kind := "image" },
         { src := "s/d10.png", dest := "r/img/d10.png", kind := "image" }]
        [] false
        { files := [("r/img/d10.png", 2), ("s/dt.png", 1), ("s/d10.png", 2)],
          dirs := ["r/img", "s"] } =
      Except.ok
        ({ files := [("r/img/d10.png", 2), ("s/dt.png", 1), ("s/d10.png", 2)],
           dirs := ["r/img", "s"] }, ["copied", "copied"]) := by decide

end CopyImageModel
